import Mathlib

/-
Verification of the crown-segmentation pipeline of the tree-detection
repository (src/object_detection/tree_detector.py and
src/object_detection/helper_functions.py), as a shallow embedding.

Floating-point values of the source are modelled over the rationals.
Library collaborators (hdbscan, sklearn KMeans, scipy ConvexHull,
geopandas sjoin) are modelled at their call interface: their outputs are
parameters of the embedded stage, except where their documented input
validation decides a claim, which the definition's comment then states.
-/

namespace TreeDetection

/-! Numeric helpers shared by the embedded stages. -/

/-- Round half to even on rationals: the rounding of numpy `np.round` and of
Python 3's builtin `round` at zero decimals. -/
def rhe (q : ℚ) : ℤ :=
  let f : ℤ := ⌊q⌋
  let r : ℚ := q - (f : ℚ)
  if r < 1/2 then f
  else if 1/2 < r then f + 1
  else if Even f then f else f + 1

/-- Python `int(...)` on a float: truncation toward zero. -/
def pyInt (q : ℚ) : ℤ := if 0 ≤ q then ⌊q⌋ else -⌊-q⌋

/-- Python `round(x, 1)`: round half to even at one decimal place. -/
def pyRound1 (q : ℚ) : ℚ := (rhe (10 * q) : ℚ) / 10

/-- helper_functions.round_to_val:
`np.round(np.array(a, dtype=float) / round_val) * round_val`. -/
def round_to_val (a round_val : ℚ) : ℚ := (rhe (a / round_val) : ℚ) * round_val

/-- Python `min` over a sequence (the sequence is nonempty in every use the
source makes; the empty case is given a junk value). -/
def listMin : List ℚ → ℚ
  | [] => 0
  | x :: xs => xs.foldl min x

/-- Python `max` over a sequence, as `listMin`. -/
def listMax : List ℚ → ℚ
  | [] => 0
  | x :: xs => xs.foldl max x

/-! MaskBuilder: the mask construction in DetectorTree.`__init__`. -/

/-- One record of the point table read from the ept: the attribute columns
DetectorTree uses. -/
structure RawPoint where
  x : ℚ
  y : ℚ
  z : ℚ
  classification : ℤ
  returnNumber : ℤ
  numberOfReturns : ℤ
  intensity : ℤ
  hag1 : ℚ
  coplanar : ℚ
  normalX : ℚ
  normalY : ℚ
  normalZ : ℚ
  red : ℤ
  green : ℤ
  blue : ℤ
deriving DecidableEq

/-- `self.ground_mask = self.raw_points['Classification'] == 2`. -/
def ground_mask (p : RawPoint) : Bool := p.classification == 2

/-- `self.n_returns_mask = self.raw_points['NumberOfReturns'] < 2`. -/
def n_returns_mask (p : RawPoint) : Bool := decide (p.numberOfReturns < 2)

/-- `masks = np.vstack([ground_mask, n_returns_mask]);
self.masks = np.sum(masks, axis=0) == 0`: a point is kept for clustering
when neither exclusion mask is set. -/
def masks (p : RawPoint) : Bool :=
  (cond (ground_mask p) 1 0) + (cond (n_returns_mask p) 1 0) == 0

/-! DensityClusterer: DetectorTree.hdbscan_on_points. -/

/-- The hdbscan library's `HDBSCAN(min_cluster_size, min_samples).fit`,
modelled at its interface. The library validates its input through
sklearn's `check_array`, which raises ValueError on an array with zero
samples (every published version does); for a nonempty array the labels the
clusterer computes are abstracted as the parameter `fitLabels`. The two
tuning parameters configure the abstracted clusterer and are not consumed
by the validation model. -/
def hdbscanFit (_min_cluster_size _min_samples : ℕ)
    (fitLabels : List (List ℚ) → List ℤ) (xy : List (List ℚ)) :
    Except String (List ℤ) :=
  if xy.isEmpty then
    Except.error "ValueError: Found array with 0 sample(s) while a minimum of 1 is required"
  else
    Except.ok (fitLabels xy)

/-- DetectorTree.hdbscan_on_points: mask the raw points, stack (X, Y) or
(X, Y, Z) columns, fit, then keep the non-noise rows
(`clustered_points[clustered_points.Classification >= 0]`). The source has
no handler around `fit`, so an exception it raises propagates. -/
def hdbscan_on_points (fitLabels : List (List ℚ) → List ℤ)
    (min_cluster_size min_samples : ℕ) (xyz : Bool) (raw : List RawPoint) :
    Except String (List (RawPoint × ℤ)) :=
  let masked_points := raw.filter masks
  let xy := if xyz then masked_points.map (fun p => [p.x, p.y, p.z])
            else masked_points.map (fun p => [p.x, p.y])
  match hdbscanFit min_cluster_size min_samples fitLabels xy with
  | Except.error e => Except.error e
  | Except.ok labels =>
      Except.ok ((masked_points.zip labels).filter (fun pc => decide (0 ≤ pc.2)))

/-- A raw point classified as ground (Classification = 2): it is removed by
the clustering mask. -/
def demoGroundPoint : RawPoint :=
  ⟨0, 0, 0, 2, 1, 3, 0, 0, 0, 0, 0, 1, 0, 0, 0⟩

/-! SeededClusterer: the KMeans call of DetectorTree.kmean_cluster_group. -/

/-- The initialization handed to sklearn KMeans: its default scheme, or an
explicit seed array (`init=np.array(coordinates)`). -/
inductive KMeansInit where
  | standard : KMeansInit
  | seedArray : List (ℚ × ℚ × ℚ) → KMeansInit
deriving DecidableEq

/-- The configuration of one sklearn KMeans call as
DetectorTree.kmean_cluster_group builds it. -/
structure KMeansCall where
  n_clusters : ℕ
  max_iter : ℕ
  init : KMeansInit
deriving DecidableEq

/-- The branch of DetectorTree.kmean_cluster_group that chooses the KMeans
call: `if len(coordinates) > 0:` print 'max iter is 1' and call
`KMeans(n_clusters=n_clusters, max_iter=100, init=np.array(coordinates))`,
`else:` call `KMeans(n_clusters=n_clusters, max_iter=1)` (default
initialization). -/
def kmean_cluster_group_call (coordinates : List (ℚ × ℚ × ℚ))
    (n_clusters : ℕ) : KMeansCall :=
  if 0 < coordinates.length then
    ⟨n_clusters, 100, KMeansInit.seedArray coordinates⟩
  else
    ⟨n_clusters, 1, KMeansInit.standard⟩

/-! HullBuilder: DetectorTree.convex_hullify. -/

/-- A row of the clustered point table handed to convex_hullify: the pandas
index (pid), the cluster label column named Classification, and the
attribute columns the loop reads. -/
structure CPoint where
  pid : ℕ
  cls : ℤ
  x : ℚ
  y : ℚ
  z : ℚ
  normalX : ℚ
  normalY : ℚ
  normalZ : ℚ
  coplanar : ℚ
deriving DecidableEq

/-- A row of `self.tree_df` as convex_hullify writes it. The geometry column
(the shapely polygon parsed back from the hull's wkt) is abstracted by its
area, the only attribute of it the pipeline reads. -/
structure TreeRow where
  xy_clusterID : ℤ
  area : ℚ
  meanZ : ℚ
  n_pts : ℕ
  nx : ℚ
  ny : ℚ
  nz : ℚ
  cop : ℚ
deriving DecidableEq

/-- pandas `Series.mean()`. -/
def qmean (l : List ℚ) : ℚ := l.sum / (l.length : ℚ)

/-- `points.groupby('Classification').get_group(name)`: the rows carrying
the label `name`. -/
def membersOf (points : List CPoint) (name : ℤ) : List CPoint :=
  points.filter (fun p => p.cls == name)

/-- pandas `DataFrame.drop(index)` WITHOUT `inplace=True`: builds and
returns a new table without the given rows; the receiver is untouched. -/
def pandasDrop (points : List CPoint) (idx : List ℕ) : List CPoint :=
  points.filter (fun p => !(idx.contains p.pid))

/-- Insertion of a key into a sorted key list, keeping it sorted. -/
def insortKey (k : ℤ) : List ℤ → List ℤ
  | [] => [k]
  | x :: xs => if k ≤ x then k :: x :: xs else x :: insortKey k xs

/-- Ascending insertion sort over group keys. -/
def sortKeys (l : List ℤ) : List ℤ := l.foldr insortKey []

/-- pandas `groupby('Classification')` iterates its groups in sorted key
order: the distinct labels, ascending. -/
def groupKeys (points : List CPoint) : List ℤ :=
  sortKeys ((points.map CPoint.cls).dedup)

/-- One pass of the loop body of DetectorTree.convex_hullify for the group
`name`, threading the caller's points table through. `hullArea` models
`loads(wkt).area` of the scipy convex hull of the group, an external
computation. In each rejection branch the source calls `points.drop(...)`
without `inplace=True` and without binding the result: the dropped copy is
built and discarded, so the table is threaded on unchanged. -/
def convex_hullify_step (hullArea : List CPoint → ℚ) (kmean_pols : Bool)
    (points : List CPoint) (name : ℤ) : List CPoint × Option TreeRow :=
  let group := membersOf points name
  if group.length ≤ 3 then
    let _discarded := pandasDrop points (group.map CPoint.pid)
    (points, none)
  else
    let area := hullArea group
    if (group.length : ℚ) / area ≤ 3 then
      let _discarded := pandasDrop points (group.map CPoint.pid)
      (points, none)
    else if kmean_pols && decide (800 ≤ area) then
      let _discarded := pandasDrop points (group.map CPoint.pid)
      (points, none)
    else
      (points, some ⟨name, area, qmean (group.map CPoint.z), group.length,
        qmean (group.map CPoint.normalX), qmean (group.map CPoint.normalY),
        qmean (group.map CPoint.normalZ), qmean (group.map CPoint.coplanar)⟩)

/-- The accumulation of one loop pass: the threaded points table and the
tree_df rows written so far. -/
def convex_hullify_fold (hullArea : List CPoint → ℚ) (kmean_pols : Bool)
    (st : List CPoint × List TreeRow) (name : ℤ) : List CPoint × List TreeRow :=
  let next := convex_hullify_step hullArea kmean_pols st.1 name
  (next.1, st.2 ++ next.2.toList)

/-- DetectorTree.convex_hullify: `self.tree_df` is emptied first
(`self.tree_df.drop(self.tree_df.index, inplace=True)`), then the group loop
runs; the result is the points table after the loop together with the rows
written to tree_df. -/
def convex_hullify (hullArea : List CPoint → ℚ) (kmean_pols : Bool)
    (points : List CPoint) : List CPoint × List TreeRow :=
  (groupKeys points).foldl (convex_hullify_fold hullArea kmean_pols) (points, [])

/-! SpatialJoiner: DetectorTree.find_points_in_polygons. -/

/-- A row of the geopandas left spatial join: the point table's index (pid),
the point's planar coordinates, `index_right` (the tree_df index of a
matched polygon; `none` models the NaN of a point matching no polygon) and
the matched polygon's xy_clusterID column (`none` when unmatched). -/
structure JoinRow where
  pid : ℕ
  pt : ℚ × ℚ
  index_right : Option ℕ
  xy_clusterID : Option ℤ
deriving DecidableEq

/-- geopandas `sjoin(points_df, polygon_df, how='left')` with its default
intersects predicate. `covers` models the shapely point-polygon
intersection test of a polygon geometry `g` with a point (true also on the
boundary); polygons are abstract geometries paired with their
xy_clusterID column, indexed by list position as in tree_df. The left join
emits one row per (point, matching polygon) pair, and a single
NaN-filled row for a point matching no polygon. -/
def sjoin_left {π : Type} (covers : π → ℚ × ℚ → Bool)
    (pts : List (ℕ × (ℚ × ℚ))) (polys : List (π × ℤ)) : List JoinRow :=
  pts.flatMap (fun pp =>
    let ms := polys.enum.filter (fun ip => covers ip.2.1 pp.2)
    if ms.isEmpty then [⟨pp.1, pp.2, none, none⟩]
    else ms.map (fun ip => ⟨pp.1, pp.2, some ip.1, some ip.2.2⟩))

/-- DetectorTree.find_points_in_polygons from the join on: drop the rows
whose index_right is NaN, then the rows whose xy_clusterID is negative
(`grouped_points[grouped_points.xy_clusterID >= 0]`; a NaN compares false
there, which the Option match mirrors). The final rename of index_right to
polygon_id is a pure column relabeling, so the filtered rows are returned
as they stand and index_right is read as the polygon id. -/
def find_points_in_polygons {π : Type} (covers : π → ℚ × ℚ → Bool)
    (pts : List (ℕ × (ℚ × ℚ))) (polys : List (π × ℤ)) : List JoinRow :=
  let grouped := sjoin_left covers pts polys
  let grouped := grouped.filter (fun r => !(r.index_right == none))
  grouped.filter (fun r =>
    match r.xy_clusterID with
    | some c => decide (0 ≤ c)
    | none => false)

/-- An axis-aligned closed box, a concrete polygon geometry for evaluating
the join: shapely point-in-polygon intersection on such a box is exactly
the coordinatewise bound test. -/
structure Box where
  xmin : ℚ
  xmax : ℚ
  ymin : ℚ
  ymax : ℚ
deriving DecidableEq

/-- Point-polygon intersection for a closed box. -/
def boxCovers (b : Box) (p : ℚ × ℚ) : Bool :=
  decide (b.xmin ≤ p.1) && decide (p.1 ≤ b.xmax) &&
  decide (b.ymin ≤ p.2) && decide (p.2 ≤ b.ymax)

/-- Two overlapping boxes, both containing the demo point (1, 1), with
xy_clusterID 0 and 1. -/
def demoPolys : List (Box × ℤ) :=
  [(⟨0, 2, 0, 2⟩, 0), (⟨0, 3, 0, 3⟩, 1)]

/-- A single candidate point inside both demo boxes. -/
def demoPts : List (ℕ × (ℚ × ℚ)) := [(0, (1, 1))]

/-! PeakDetector: helper_functions.interpolate_df, the raster construction
find_n_clusters_peaks detects peaks in. The input `pts` is the X, Y, Z
point data of one polygon's members; `r` is round_val, the grid size. -/

/-- The distinct rounded grid cells with the binned value:
`xyz_points['x_round'] = round_to_val(X, round_val)` (likewise y), then
`binned_data = xyz_points.groupby(['x_round', 'y_round'], as_index=False).max()`
applied to Z squared (`Z': xyz_points[2] ** 2`). Each entry is
(x_round, y_round, max of squared Z over the cell). -/
def binnedData (pts : List (ℚ × ℚ × ℚ)) (r : ℚ) : List (ℚ × ℚ × ℚ) :=
  let cells := (pts.map (fun p => (round_to_val p.1 r, round_to_val p.2.1 r))).dedup
  cells.map (fun c =>
    (c.1, c.2, listMax ((pts.filter (fun p =>
      round_to_val p.1 r == c.1 && round_to_val p.2.1 r == c.2)).map
        (fun p => p.2.2 ^ 2))))

/-- `minx = min(binned_data.x_round)`. -/
def interp_minx (pts : List (ℚ × ℚ × ℚ)) (r : ℚ) : ℚ :=
  listMin ((binnedData pts r).map (fun b => b.1))

/-- `miny = min(binned_data.y_round)`. -/
def interp_miny (pts : List (ℚ × ℚ × ℚ)) (r : ℚ) : ℚ :=
  listMin ((binnedData pts r).map (fun b => b.2.1))

/-- `img_size_x = int(round(max(x_arr), 1))` with
`x_arr = binned_data.x_round - min(binned_data.x_round)`. -/
def interp_img_size_x (pts : List (ℚ × ℚ × ℚ)) (r : ℚ) : ℤ :=
  pyInt (pyRound1 (listMax ((binnedData pts r).map
    (fun b => b.1 - interp_minx pts r))))

/-- `img_size_y = int(round(max(y_arr), 1))`. -/
def interp_img_size_y (pts : List (ℚ × ℚ × ℚ)) (r : ℚ) : ℤ :=
  pyInt (pyRound1 (listMax ((binnedData pts r).map
    (fun b => b.2.1 - interp_miny pts r))))

/-- The column index at which a binned cell is written into the raster
(`img = np.zeros([img_size_y + 1, img_size_x + 1])`):
`round_to_val(x_arr / round_val, 1).astype(np.int)`, where
round_to_val with grid 1 is np.round and the cast of the already integral
float keeps its value. -/
def interp_x_index (pts : List (ℚ × ℚ × ℚ)) (r : ℚ) (b : ℚ × ℚ × ℚ) : ℤ :=
  rhe ((b.1 - interp_minx pts r) / r)

/-- The row index at which a binned cell is written into the raster. -/
def interp_y_index (pts : List (ℚ × ℚ × ℚ)) (r : ℚ) (b : ℚ × ℚ × ℚ) : ℤ :=
  rhe ((b.2.1 - interp_miny pts r) / r)

/-- Two points one x-unit grid step short of spanning the raster when the
grid size is fractional. -/
def demoPeakPts : List (ℚ × ℚ × ℚ) := [(0, 0, 0), (2, 0, 0)]

/-! LabelFuser: the tail of DetectorTree.kmean_cluster — the labs table
after the group loop, value_clusterID, combi_ids and the factorized
Classification column. -/

/-- Characters of the decimal representation of a natural number, with
explicit fuel (fuel n + 1 always suffices). -/
def natCharsF : ℕ → ℕ → List Char
  | 0, _ => []
  | f + 1, n =>
    if n < 10 then [Nat.digitChar n]
    else natCharsF f (n / 10) ++ [Nat.digitChar (n % 10)]

/-- The decimal digit characters of a natural number, most significant
first: the digits Python's str produces. -/
def natChars (n : ℕ) : List Char := natCharsF (n + 1) n

/-- Decimal decode of a character list, the left inverse of natChars. -/
def natVal (l : List Char) : ℕ :=
  l.foldl (fun a c => 10 * a + (c.toNat - 48)) 0

/-- The character rendering of an integer: an optional minus sign followed
by the decimal digits. -/
def intChars : ℤ → List Char
  | Int.ofNat n => natChars n
  | Int.negSucc n => '-' :: natChars (n + 1)

/-- numpy `astype(str)` of one integral float64 cell: the integer digits
followed by ".0" (both label columns hold integral floats: value_clusterID
is 10 times an integer label, xy_clusterID an integer polygon label). -/
def floatChars (z : ℤ) : List Char := intChars z ++ ['.', '0']

/-- One entry of `combi_ids = ["".join(row) for row in
kmean_grouped_points[['value_clusterID', 'xy_clusterID']].values.astype(str)]`. -/
def combiId (value_clusterID xy_clusterID : ℤ) : List Char :=
  floatChars value_clusterID ++ floatChars xy_clusterID

/-- Position of the first occurrence of a key in a key list (the list length
when the key is absent). -/
def idxOfKey (k : List Char) : List (List Char) → ℕ
  | [] => 0
  | s :: ss => if s = k then 0 else idxOfKey k ss + 1

/-- The key table pandas factorize builds while scanning: already seen keys
in first-appearance order. -/
def firstSeenAcc : List (List Char) → List (List Char) → List (List Char)
  | seen, [] => seen
  | seen, k :: ks => firstSeenAcc (if k ∈ seen then seen else seen ++ [k]) ks

/-- The code assignment of pandas factorize: a key already seen gets the
position of its first appearance, a new key gets the next dense code. -/
def factorizeGo : List (List Char) → List (List Char) → List ℤ
  | _, [] => []
  | seen, k :: ks =>
    (if k ∈ seen then (idxOfKey k seen : ℤ) else (seen.length : ℤ)) ::
      factorizeGo (if k ∈ seen then seen else seen ++ [k]) ks

/-- `pd.factorize(combi_ids)[0]`: dense integer codes in first-seen order. -/
def factorize (ks : List (List Char)) : List ℤ := factorizeGo [] ks

/-- A row of `self.kmean_grouped_points` as the label fusion reads it: the
point id and the xy_clusterID of the polygon the point was joined to. The
coordinate columns feed only the KMeans call, which is abstracted by the
`kml` parameter below. -/
structure KRow where
  pid : ℕ
  xyId : ℤ
deriving DecidableEq

/-- The sub-segmentation plausibility test of DetectorTree.kmean_cluster:
`if name >= 0 and tree_area >= 2 and group.shape[0] >= 10`, where
`tree_area = float(self.tree_df.loc[self.tree_df['xy_clusterID'] ==
int(name)].geometry.area)` is modelled as the lookup `areaOf name`. -/
def kmeanQualifies (areaOf : ℤ → ℚ) (rows : List KRow) (name : ℤ) : Bool :=
  decide (0 ≤ name) && decide (2 ≤ areaOf name) &&
    decide (10 ≤ (rows.filter (fun r => r.xyId == name)).length)

/-- The labs column of one row after the group loop: for a qualifying group
the label the row holds after `labs.update(new_labs)`, abstracted as `kml`
at the row's pid (the kmeans label for rows kept by second_filter, the
initial 0 for rows second_filter dropped); for a failing group the -1 the
else branch writes through `labs.update` of a new_labs frame holding -1 at
every pid of the group. -/
def labsOf (areaOf : ℤ → ℚ) (kml : ℕ → ℤ) (rows : List KRow) (r : KRow) : ℤ :=
  if kmeanQualifies areaOf rows r.xyId then kml r.pid else -1

/-- `self.kmean_grouped_points['value_clusterID'] = labs.labs * 10`. -/
def value_clusterID_of (areaOf : ℤ → ℚ) (kml : ℕ → ℤ) (rows : List KRow)
    (r : KRow) : ℤ :=
  labsOf areaOf kml rows r * 10

/-- The combi_ids column over the whole table, in the table's row order. -/
def combi_ids (areaOf : ℤ → ℚ) (kml : ℕ → ℤ) (rows : List KRow) :
    List (List Char) :=
  rows.map (fun r => combiId (value_clusterID_of areaOf kml rows r) r.xyId)

/-- `self.kmean_grouped_points['Classification'] =
pd.factorize(combi_ids)[0]`: the final crown label column. -/
def kmean_classification (areaOf : ℤ → ℚ) (kml : ℕ → ℤ) (rows : List KRow) :
    List ℤ :=
  factorize (combi_ids areaOf kml rows)

/-- One point in one polygon whose area (1) fails the `tree_area >= 2`
plausibility bound. -/
def demoKRows : List KRow := [⟨0, 0⟩]

/-- The tree_df area lookup for the demo polygon: every polygon has area 1. -/
def demoAreaOf : ℤ → ℚ := fun _ => 1

/-- An arbitrary KMeans labelling for the demo rows (never consulted, since
the demo polygon fails the plausibility test). -/
def demoKml : ℕ → ℤ := fun _ => 0

/-! Concrete inputs used by witnesses. -/

/-- Four clustered points in one group (label 0), enough to hullify. -/
def demoHullPts : List CPoint :=
  [⟨0, 0, 0, 0, 0, 0, 0, 0, 0⟩, ⟨1, 0, 1, 0, 0, 0, 0, 0, 0⟩,
   ⟨2, 0, 1, 1, 0, 0, 0, 0, 0⟩, ⟨3, 0, 0, 1, 0, 0, 0, 0, 0⟩]

/-- A hull-area model giving every group area 1. -/
def demoHullArea : List CPoint → ℚ := fun _ => 1

/-- Two disjoint boxes with xy_clusterID 0 and 1; only the first covers the
demo point (1, 1). -/
def demoDisjointPolys : List (Box × ℤ) :=
  [(⟨0, 2, 0, 2⟩, 0), (⟨10, 12, 0, 2⟩, 1)]

/-- Two points in two polygons, for exercising the label fusion. -/
def demoKRows2 : List KRow := [⟨0, 0⟩, ⟨1, 3⟩]

/-! Helper lemmas. -/

lemma convex_hullify_step_fst (a : List CPoint → ℚ) (kp : Bool)
    (pts : List CPoint) (n : ℤ) : (convex_hullify_step a kp pts n).1 = pts := by
  simp only [convex_hullify_step]
  split_ifs <;> rfl

lemma convex_hullify_fold_eq (a : List CPoint → ℚ) (kp : Bool)
    (pts : List CPoint) (acc : List TreeRow) (k : ℤ) :
    convex_hullify_fold a kp (pts, acc) k =
      (pts, acc ++ (convex_hullify_step a kp pts k).2.toList) := by
  simp only [convex_hullify_fold, convex_hullify_step_fst]

lemma convex_hullify_foldl_fst (a : List CPoint → ℚ) (kp : Bool)
    (keys : List ℤ) : ∀ (pts : List CPoint) (acc : List TreeRow),
    (keys.foldl (convex_hullify_fold a kp) (pts, acc)).1 = pts := by
  induction keys with
  | nil => intro pts acc; rfl
  | cons k ks ih =>
    intro pts acc
    rw [List.foldl_cons, convex_hullify_fold_eq]
    exact ih pts _

lemma convex_hullify_step_small (a : List CPoint → ℚ) (kp : Bool)
    (pts : List CPoint) (name : ℤ)
    (h : (membersOf pts name).length ≤ 3) :
    convex_hullify_step a kp pts name = (pts, none) := by
  simp only [convex_hullify_step]
  rw [if_pos h]

lemma convex_hullify_step_sparse (a : List CPoint → ℚ) (kp : Bool)
    (pts : List CPoint) (name : ℤ)
    (h1 : 3 < (membersOf pts name).length)
    (h2 : ((membersOf pts name).length : ℚ) / a (membersOf pts name) ≤ 3) :
    convex_hullify_step a kp pts name = (pts, none) := by
  simp only [convex_hullify_step]
  rw [if_neg (by omega), if_pos h2]

lemma convex_hullify_step_emit (a : List CPoint → ℚ) (kp : Bool)
    (pts : List CPoint) (name : ℤ) (row : TreeRow)
    (h : (convex_hullify_step a kp pts name).2 = some row) :
    4 ≤ row.n_pts ∧ 0 < row.area ∧ 3 * row.area < (row.n_pts : ℚ) := by
  by_cases h1 : (membersOf pts name).length ≤ 3
  · rw [convex_hullify_step_small a kp pts name h1] at h
    exact absurd h (by simp)
  · by_cases h2 : ((membersOf pts name).length : ℚ) / a (membersOf pts name) ≤ 3
    · rw [convex_hullify_step_sparse a kp pts name (by omega) h2] at h
      exact absurd h (by simp)
    · simp only [convex_hullify_step] at h
      rw [if_neg h1, if_neg h2] at h
      by_cases h3 : (kp && decide (800 ≤ a (membersOf pts name))) = true
      · rw [if_pos h3] at h
        exact absurd h (by simp)
      · rw [if_neg h3] at h
        simp only [Option.some.injEq] at h
        subst h
        push_neg at h1 h2
        have hdiv : (3 : ℚ) <
            ((membersOf pts name).length : ℚ) / a (membersOf pts name) := h2
        have hpos : 0 < a (membersOf pts name) := by
          rcases lt_trichotomy 0 (a (membersOf pts name)) with hp | hz | hn
          · exact hp
          · rw [← hz, div_zero] at hdiv; norm_num at hdiv
          · have : ((membersOf pts name).length : ℚ) / a (membersOf pts name) ≤ 0 :=
              div_nonpos_of_nonneg_of_nonpos (by positivity) (le_of_lt hn)
            linarith
        refine ⟨by show 4 ≤ (membersOf pts name).length; omega, hpos, ?_⟩
        exact (lt_div_iff₀ hpos).mp hdiv

lemma convex_hullify_mem_fold (a : List CPoint → ℚ) (kp : Bool)
    (keys : List ℤ) : ∀ (pts : List CPoint) (acc : List TreeRow)
    (row : TreeRow),
    row ∈ (keys.foldl (convex_hullify_fold a kp) (pts, acc)).2 →
      row ∈ acc ∨ ∃ name, (convex_hullify_step a kp pts name).2 = some row := by
  induction keys with
  | nil => intro pts acc row h; exact Or.inl h
  | cons k ks ih =>
    intro pts acc row h
    rw [List.foldl_cons, convex_hullify_fold_eq] at h
    rcases ih pts _ row h with hmem | hex
    · rcases List.mem_append.mp hmem with ha | hb
      · exact Or.inl ha
      · exact Or.inr ⟨k, by simpa using hb⟩
    · exact Or.inr hex

lemma groupKeys_demo : groupKeys demoHullPts = [0] := by decide

lemma membersOf_demo : membersOf demoHullPts 0 = demoHullPts := by decide

lemma convex_hullify_step_demo :
    convex_hullify_step demoHullArea false demoHullPts 0 =
      (demoHullPts, some ⟨0, 1, 0, 4, 0, 0, 0, 0⟩) := by
  simp only [convex_hullify_step, membersOf_demo]
  norm_num [demoHullArea, demoHullPts, qmean]

lemma convex_hullify_demo_out :
    (convex_hullify demoHullArea false demoHullPts).2 =
      [⟨0, 1, 0, 4, 0, 0, 0, 0⟩] := by
  unfold convex_hullify
  rw [groupKeys_demo, List.foldl_cons, convex_hullify_fold_eq,
    convex_hullify_step_demo]
  rfl

lemma sjoin_left_mem {π : Type} (covers : π → ℚ × ℚ → Bool)
    (pts : List (ℕ × (ℚ × ℚ))) (polys : List (π × ℤ)) (r : JoinRow)
    (h : r ∈ sjoin_left covers pts polys) :
    ∃ pp ∈ pts, r.pid = pp.1 ∧ r.pt = pp.2 ∧
      ((r.index_right = none ∧ r.xy_clusterID = none) ∨
        ∃ e ∈ polys.enum, covers e.2.1 pp.2 = true ∧
          r.index_right = some e.1 ∧ r.xy_clusterID = some e.2.2) := by
  simp only [sjoin_left, List.mem_flatMap] at h
  obtain ⟨pp, hpp, hr⟩ := h
  refine ⟨pp, hpp, ?_⟩
  by_cases he :
      (polys.enum.filter (fun ip => covers ip.2.1 pp.2)).isEmpty = true
  · rw [if_pos he, List.mem_singleton] at hr
    subst hr
    exact ⟨rfl, rfl, Or.inl ⟨rfl, rfl⟩⟩
  · rw [if_neg he, List.mem_map] at hr
    obtain ⟨ip, hip, hr⟩ := hr
    obtain ⟨hmem, hcov⟩ := List.mem_filter.mp hip
    subst hr
    exact ⟨rfl, rfl, Or.inr ⟨ip, hmem, hcov, rfl, rfl⟩⟩

lemma find_points_in_polygons_mem {π : Type} (covers : π → ℚ × ℚ → Bool)
    (pts : List (ℕ × (ℚ × ℚ))) (polys : List (π × ℤ)) (r : JoinRow)
    (h : r ∈ find_points_in_polygons covers pts polys) :
    r ∈ sjoin_left covers pts polys ∧
      (!(r.index_right == none)) = true ∧
      (match r.xy_clusterID with
        | some c => decide (0 ≤ c)
        | none => false) = true := by
  simp only [find_points_in_polygons] at h
  obtain ⟨h1, h2⟩ := List.mem_filter.mp h
  obtain ⟨h0, h3⟩ := List.mem_filter.mp h1
  exact ⟨h0, h3, h2⟩

lemma floor_le_rhe (q : ℚ) : ⌊q⌋ ≤ rhe q := by
  simp only [rhe]
  split_ifs <;> omega

lemma rhe_intCast (n : ℤ) : rhe (n : ℚ) = n := by
  simp only [rhe, Int.floor_intCast, sub_self]
  norm_num

lemma int_le_rhe (n : ℤ) (q : ℚ) (h : (n : ℚ) ≤ q) : n ≤ rhe q :=
  le_trans (Int.le_floor.mpr h) (floor_le_rhe q)

lemma pyInt_of_nonneg (q : ℚ) (h : 0 ≤ q) : pyInt q = ⌊q⌋ := if_pos h

lemma foldl_min_le_init (xs : List ℚ) : ∀ a : ℚ, xs.foldl min a ≤ a := by
  induction xs with
  | nil => intro a; exact le_refl a
  | cons x xs ih => intro a; exact le_trans (ih (min a x)) (min_le_left a x)

lemma foldl_min_le_mem (xs : List ℚ) :
    ∀ (a x : ℚ), x ∈ xs → xs.foldl min a ≤ x := by
  induction xs with
  | nil => intro a x hx; cases hx
  | cons y ys ih =>
    intro a x hx
    rcases List.mem_cons.mp hx with rfl | hx
    · exact le_trans (foldl_min_le_init ys (min a x)) (min_le_right a x)
    · exact ih (min a y) x hx

lemma foldl_min_mem (xs : List ℚ) :
    ∀ a : ℚ, xs.foldl min a = a ∨ xs.foldl min a ∈ xs := by
  induction xs with
  | nil => intro a; exact Or.inl rfl
  | cons y ys ih =>
    intro a
    rw [List.foldl_cons]
    rcases ih (min a y) with h | h
    · rcases min_choice a y with hm | hm
      · left; rw [h, hm]
      · right; rw [h, hm]; exact List.mem_cons_self y ys
    · right; exact List.mem_cons_of_mem y h

lemma listMin_le (l : List ℚ) (x : ℚ) (hx : x ∈ l) : listMin l ≤ x := by
  cases l with
  | nil => cases hx
  | cons y ys =>
    rcases List.mem_cons.mp hx with rfl | hx
    · exact foldl_min_le_init ys x
    · exact foldl_min_le_mem ys y x hx

lemma listMin_mem (l : List ℚ) (h : l ≠ []) : listMin l ∈ l := by
  cases l with
  | nil => exact absurd rfl h
  | cons y ys =>
    show ys.foldl min y ∈ y :: ys
    rcases foldl_min_mem ys y with h1 | h1
    · rw [h1]; exact List.mem_cons_self y ys
    · exact List.mem_cons_of_mem y h1

lemma foldl_max_le_init (xs : List ℚ) : ∀ a : ℚ, a ≤ xs.foldl max a := by
  induction xs with
  | nil => intro a; exact le_refl a
  | cons x xs ih => intro a; exact le_trans (le_max_left a x) (ih (max a x))

lemma foldl_max_le_mem (xs : List ℚ) :
    ∀ (a x : ℚ), x ∈ xs → x ≤ xs.foldl max a := by
  induction xs with
  | nil => intro a x hx; cases hx
  | cons y ys ih =>
    intro a x hx
    rcases List.mem_cons.mp hx with rfl | hx
    · exact le_trans (le_max_right a x) (foldl_max_le_init ys (max a x))
    · exact ih (max a y) x hx

lemma foldl_max_mem (xs : List ℚ) :
    ∀ a : ℚ, xs.foldl max a = a ∨ xs.foldl max a ∈ xs := by
  induction xs with
  | nil => intro a; exact Or.inl rfl
  | cons y ys ih =>
    intro a
    rw [List.foldl_cons]
    rcases ih (max a y) with h | h
    · rcases max_choice a y with hm | hm
      · left; rw [h, hm]
      · right; rw [h, hm]; exact List.mem_cons_self y ys
    · right; exact List.mem_cons_of_mem y h

lemma listMax_ge (l : List ℚ) (x : ℚ) (hx : x ∈ l) : x ≤ listMax l := by
  cases l with
  | nil => cases hx
  | cons y ys =>
    rcases List.mem_cons.mp hx with rfl | hx
    · exact foldl_max_le_init ys x
    · exact foldl_max_le_mem ys y x hx

lemma listMax_mem (l : List ℚ) (h : l ≠ []) : listMax l ∈ l := by
  cases l with
  | nil => exact absurd rfl h
  | cons y ys =>
    show ys.foldl max y ∈ y :: ys
    rcases foldl_max_mem ys y with h1 | h1
    · rw [h1]; exact List.mem_cons_self y ys
    · exact List.mem_cons_of_mem y h1

lemma binnedData_ne_nil (pts : List (ℚ × ℚ × ℚ)) (r : ℚ) (h : pts ≠ []) :
    binnedData pts r ≠ [] := by
  simp only [binnedData, ne_eq, List.map_eq_nil_iff, List.dedup_eq_nil]
  intro hc
  exact h hc

lemma binnedData_shape (pts : List (ℚ × ℚ × ℚ)) (r : ℚ) (b : ℚ × ℚ × ℚ)
    (hb : b ∈ binnedData pts r) :
    ∃ p ∈ pts, b.1 = round_to_val p.1 r ∧ b.2.1 = round_to_val p.2.1 r := by
  simp only [binnedData, List.mem_map] at hb
  obtain ⟨c, hc, hbc⟩ := hb
  have hc2 := List.mem_dedup.mp hc
  rw [List.mem_map] at hc2
  obtain ⟨p, hp, hcp⟩ := hc2
  refine ⟨p, hp, ?_, ?_⟩
  · rw [← hbc, ← hcp]
  · rw [← hbc, ← hcp]

lemma rounded_index_bound (vals : List ℚ) (r : ℚ) (hr : 1 ≤ r)
    (hshape : ∀ v ∈ vals, ∃ k : ℤ, v = (k : ℚ) * r) (hne : vals ≠ [])
    (v : ℚ) (hv : v ∈ vals) :
    0 ≤ rhe ((v - listMin vals) / r) ∧
      rhe ((v - listMin vals) / r) ≤
        pyInt (pyRound1 (listMax (vals.map (fun w => w - listMin vals)))) := by
  have hr0 : (0 : ℚ) < r := lt_of_lt_of_le zero_lt_one hr
  have hrne : r ≠ 0 := ne_of_gt hr0
  obtain ⟨kv, hkv⟩ := hshape v hv
  obtain ⟨k0, hk0⟩ := hshape (listMin vals) (listMin_mem vals hne)
  have hidx : (v - listMin vals) / r = ((kv - k0 : ℤ) : ℚ) := by
    rw [hkv, hk0]
    field_simp
    ring
  have hmin_le : listMin vals ≤ v := listMin_le vals v hv
  have hk0kv : k0 ≤ kv := by
    have h1 : (k0 : ℚ) * r ≤ (kv : ℚ) * r := by rw [← hk0, ← hkv]; exact hmin_le
    exact_mod_cast le_of_mul_le_mul_right h1 hr0
  constructor
  · rw [hidx, rhe_intCast]; omega
  · have hmapne : vals.map (fun w => w - listMin vals) ≠ [] := by
      intro hc; exact hne (List.map_eq_nil_iff.mp hc)
    have hAmem := listMax_mem _ hmapne
    rw [List.mem_map] at hAmem
    obtain ⟨vt, hvt, hvtA⟩ := hAmem
    obtain ⟨kt, hkt⟩ := hshape vt hvt
    have hAval : listMax (vals.map (fun w => w - listMin vals)) =
        ((kt - k0 : ℤ) : ℚ) * r := by
      rw [← hvtA, hkt, hk0]
      push_cast
      ring
    have hvA : v - listMin vals ≤ listMax (vals.map (fun w => w - listMin vals)) :=
      listMax_ge _ _ (List.mem_map.mpr ⟨v, hv, rfl⟩)
    have hkk : kv - k0 ≤ kt - k0 := by
      have h1 : ((kv - k0 : ℤ) : ℚ) * r ≤ ((kt - k0 : ℤ) : ℚ) * r := by
        rw [← hAval]
        calc ((kv - k0 : ℤ) : ℚ) * r = v - listMin vals := by
              rw [hkv, hk0]; push_cast; ring
        _ ≤ _ := hvA
      exact_mod_cast le_of_mul_le_mul_right h1 hr0
    have hk0kt : (0 : ℤ) ≤ kt - k0 := by omega
    have hKA : ((kt - k0 : ℤ) : ℚ) ≤ listMax (vals.map (fun w => w - listMin vals)) := by
      rw [hAval]
      calc ((kt - k0 : ℤ) : ℚ) = ((kt - k0 : ℤ) : ℚ) * 1 := by ring
      _ ≤ ((kt - k0 : ℤ) : ℚ) * r := by
            apply mul_le_mul_of_nonneg_left hr
            exact_mod_cast hk0kt
    have h10 : ((10 * (kt - k0) : ℤ) : ℚ) ≤
        10 * listMax (vals.map (fun w => w - listMin vals)) := by
      push_cast
      push_cast at hKA
      linarith
    have hrhe : 10 * (kt - k0) ≤
        rhe (10 * listMax (vals.map (fun w => w - listMin vals))) :=
      int_le_rhe _ _ h10
    have hpr : ((kt - k0 : ℤ) : ℚ) ≤
        pyRound1 (listMax (vals.map (fun w => w - listMin vals))) := by
      rw [pyRound1, le_div_iff₀ (by norm_num : (0 : ℚ) < 10)]
      calc ((kt - k0 : ℤ) : ℚ) * 10 = ((10 * (kt - k0) : ℤ) : ℚ) := by
            push_cast; ring
      _ ≤ _ := by exact_mod_cast hrhe
    have hprnn : (0 : ℚ) ≤
        pyRound1 (listMax (vals.map (fun w => w - listMin vals))) :=
      le_trans (by exact_mod_cast hk0kt) hpr
    rw [hidx, rhe_intCast, pyInt_of_nonneg _ hprnn]
    have hfl := Int.le_floor.mpr hpr
    omega

lemma digitChar_toNat (m : ℕ) (h : m < 10) :
    (Nat.digitChar m).toNat = 48 + m := by
  interval_cases m <;> rfl

lemma digitChar_isDigit (m : ℕ) (h : m < 10) :
    (Nat.digitChar m).isDigit = true := by
  interval_cases m <;> rfl

lemma natVal_append_digit (l : List Char) (c : Char) :
    natVal (l ++ [c]) = 10 * natVal l + (c.toNat - 48) := by
  simp [natVal, List.foldl_append]

lemma natVal_natCharsF : ∀ (f n : ℕ), n < f → natVal (natCharsF f n) = n := by
  intro f
  induction f with
  | zero => intro n h; omega
  | succ f ih =>
    intro n h
    simp only [natCharsF]
    by_cases h10 : n < 10
    · rw [if_pos h10]
      simp only [natVal, List.foldl_cons, List.foldl_nil]
      rw [digitChar_toNat n h10]
      omega
    · rw [if_neg h10]
      rw [natVal_append_digit]
      have hdiv : n / 10 < f := by
        have h1 : n / 10 < n := Nat.div_lt_self (by omega) (by omega)
        omega
      rw [ih (n / 10) hdiv, digitChar_toNat (n % 10) (Nat.mod_lt n (by omega))]
      omega

lemma natChars_natVal (n : ℕ) : natVal (natChars n) = n :=
  natVal_natCharsF (n + 1) n (Nat.lt_succ_self n)

lemma natChars_inj (a b : ℕ) (h : natChars a = natChars b) : a = b := by
  have h2 := congrArg natVal h
  rwa [natChars_natVal, natChars_natVal] at h2

lemma natCharsF_digits : ∀ (f n : ℕ) (c : Char),
    c ∈ natCharsF f n → c.isDigit = true := by
  intro f
  induction f with
  | zero => intro n c hc; cases hc
  | succ f ih =>
    intro n c hc
    simp only [natCharsF] at hc
    by_cases h10 : n < 10
    · rw [if_pos h10, List.mem_singleton] at hc
      subst hc
      exact digitChar_isDigit n h10
    · rw [if_neg h10] at hc
      rcases List.mem_append.mp hc with h1 | h1
      · exact ih _ c h1
      · rw [List.mem_singleton] at h1
        subst h1
        exact digitChar_isDigit (n % 10) (Nat.mod_lt n (by omega))

lemma natChars_digits (n : ℕ) (c : Char) (hc : c ∈ natChars n) :
    c.isDigit = true :=
  natCharsF_digits (n + 1) n c hc

lemma dot_not_mem_natChars (n : ℕ) : ('.') ∉ natChars n := by
  intro h
  have h2 := natChars_digits n '.' h
  exact absurd h2 (by decide)

lemma dot_not_mem_intChars (z : ℤ) : ('.') ∉ intChars z := by
  cases z with
  | ofNat n => exact dot_not_mem_natChars n
  | negSucc n =>
    intro h
    rcases List.mem_cons.mp h with h1 | h1
    · exact absurd h1 (by decide)
    · exact dot_not_mem_natChars (n + 1) h1

lemma intChars_inj (a b : ℤ) (h : intChars a = intChars b) : a = b := by
  cases a with
  | ofNat m =>
    cases b with
    | ofNat n => exact congrArg Int.ofNat (natChars_inj m n h)
    | negSucc n =>
      exfalso
      have hm : '-' ∈ natChars m := by
        show '-' ∈ intChars (Int.ofNat m)
        rw [h]
        exact List.mem_cons_self _ _
      exact absurd (natChars_digits m '-' hm) (by decide)
  | negSucc m =>
    cases b with
    | ofNat n =>
      exfalso
      have hm : '-' ∈ natChars n := by
        show '-' ∈ intChars (Int.ofNat n)
        rw [← h]
        exact List.mem_cons_self _ _
      exact absurd (natChars_digits n '-' hm) (by decide)
    | negSucc n =>
      simp only [intChars, List.cons.injEq, true_and] at h
      have h2 := natChars_inj (m + 1) (n + 1) h
      have h3 : m = n := by omega
      rw [h3]

lemma append_sep_inj (sep : Char) : ∀ (a₁ a₂ b₁ b₂ : List Char),
    (∀ c ∈ a₁, c ≠ sep) → (∀ c ∈ a₂, c ≠ sep) →
    a₁ ++ sep :: b₁ = a₂ ++ sep :: b₂ → a₁ = a₂ ∧ b₁ = b₂ := by
  intro a₁
  induction a₁ with
  | nil =>
    intro a₂ b₁ b₂ _ h2 h
    cases a₂ with
    | nil => simpa using h
    | cons y ys =>
      simp only [List.nil_append, List.cons_append, List.cons.injEq] at h
      exact absurd h.1.symm (h2 y (List.mem_cons_self y ys))
  | cons x xs ih =>
    intro a₂ b₁ b₂ h1 h2 h
    cases a₂ with
    | nil =>
      simp only [List.nil_append, List.cons_append, List.cons.injEq] at h
      exact absurd h.1 (h1 x (List.mem_cons_self x xs))
    | cons y ys =>
      simp only [List.cons_append, List.cons.injEq] at h
      obtain ⟨hxy, hrest⟩ := h
      obtain ⟨ha, hb⟩ := ih ys b₁ b₂
        (fun c hc => h1 c (List.mem_cons_of_mem x hc))
        (fun c hc => h2 c (List.mem_cons_of_mem y hc)) hrest
      exact ⟨by rw [hxy, ha], hb⟩

lemma combiId_shape (a b : ℤ) : combiId a b =
    intChars a ++ '.' :: ('0' :: (intChars b ++ '.' :: ['0'])) := by
  simp [combiId, floatChars]

lemma combiId_inj (v c v2 c2 : ℤ) (h : combiId v c = combiId v2 c2) :
    v = v2 ∧ c = c2 := by
  rw [combiId_shape, combiId_shape] at h
  have hd1 : ∀ x ∈ intChars v, x ≠ '.' :=
    fun x hx hcx => dot_not_mem_intChars v (hcx ▸ hx)
  have hd2 : ∀ x ∈ intChars v2, x ≠ '.' :=
    fun x hx hcx => dot_not_mem_intChars v2 (hcx ▸ hx)
  obtain ⟨h1, h2⟩ := append_sep_inj '.' (intChars v) (intChars v2) _ _ hd1 hd2 h
  have h3 : intChars c ++ '.' :: ['0'] = intChars c2 ++ '.' :: ['0'] := by
    simpa using h2
  have hd3 : ∀ x ∈ intChars c, x ≠ '.' :=
    fun x hx hcx => dot_not_mem_intChars c (hcx ▸ hx)
  have hd4 : ∀ x ∈ intChars c2, x ≠ '.' :=
    fun x hx hcx => dot_not_mem_intChars c2 (hcx ▸ hx)
  obtain ⟨h4, _⟩ := append_sep_inj '.' (intChars c) (intChars c2) _ _ hd3 hd4 h3
  exact ⟨intChars_inj v v2 h1, intChars_inj c c2 h4⟩

lemma idxOfKey_append_of_mem (k : List Char) :
    ∀ (l m : List (List Char)), k ∈ l → idxOfKey k (l ++ m) = idxOfKey k l := by
  intro l
  induction l with
  | nil => intro m h; cases h
  | cons x xs ih =>
    intro m h
    simp only [List.cons_append, idxOfKey, List.append_eq]
    by_cases hx : x = k
    · rw [if_pos hx, if_pos hx]
    · rw [if_neg hx, if_neg hx]
      rcases List.mem_cons.mp h with h1 | h1
      · exact absurd h1.symm hx
      · rw [ih m h1]

lemma idxOfKey_append_of_not_mem (k : List Char) :
    ∀ (l m : List (List Char)), k ∉ l →
      idxOfKey k (l ++ m) = l.length + idxOfKey k m := by
  intro l
  induction l with
  | nil => intro m _; simp [idxOfKey]
  | cons x xs ih =>
    intro m h
    have hx : ¬ x = k := by
      intro hc; exact h (by rw [hc]; exact List.mem_cons_self k xs)
    simp only [List.cons_append, idxOfKey, if_neg hx, List.length_cons,
      List.append_eq]
    rw [ih m (fun hc => h (List.mem_cons_of_mem x hc))]
    omega

lemma idxOfKey_singleton_self (k : List Char) : idxOfKey k [k] = 0 := by
  simp [idxOfKey]

lemma getElem?_idxOfKey (k : List Char) :
    ∀ (l : List (List Char)), k ∈ l → l[idxOfKey k l]? = some k := by
  intro l
  induction l with
  | nil => intro h; cases h
  | cons x xs ih =>
    intro h
    by_cases hx : x = k
    · simp only [idxOfKey, if_pos hx, List.getElem?_cons_zero]
      rw [hx]
    · simp only [idxOfKey, if_neg hx, List.getElem?_cons_succ]
      rcases List.mem_cons.mp h with h1 | h1
      · exact absurd h1.symm hx
      · exact ih h1

lemma idxOfKey_inj (k1 k2 : List Char) (l : List (List Char))
    (h1 : k1 ∈ l) (h2 : k2 ∈ l) (h : idxOfKey k1 l = idxOfKey k2 l) :
    k1 = k2 := by
  have e1 := getElem?_idxOfKey k1 l h1
  have e2 := getElem?_idxOfKey k2 l h2
  rw [h] at e1
  rw [e1] at e2
  simpa using e2

lemma firstSeenAcc_extend (ks : List (List Char)) :
    ∀ seen, ∃ t, firstSeenAcc seen ks = seen ++ t := by
  induction ks with
  | nil => intro seen; exact ⟨[], by simp [firstSeenAcc]⟩
  | cons k ks ih =>
    intro seen
    simp only [firstSeenAcc]
    by_cases hk : k ∈ seen
    · rw [if_pos hk]; exact ih seen
    · rw [if_neg hk]
      obtain ⟨t, ht⟩ := ih (seen ++ [k])
      exact ⟨[k] ++ t, by rw [ht, List.append_assoc]⟩

lemma mem_firstSeenAcc_of_seen (ks : List (List Char)) (seen : List (List Char))
    (k : List Char) (h : k ∈ seen) : k ∈ firstSeenAcc seen ks := by
  obtain ⟨t, ht⟩ := firstSeenAcc_extend ks seen
  rw [ht]
  exact List.mem_append_left t h

lemma mem_firstSeenAcc (ks : List (List Char)) :
    ∀ (seen : List (List Char)) (k : List Char),
      k ∈ ks → k ∈ firstSeenAcc seen ks := by
  induction ks with
  | nil => intro seen k h; cases h
  | cons x xs ih =>
    intro seen k h
    simp only [firstSeenAcc]
    rcases List.mem_cons.mp h with rfl | h1
    · by_cases hk : k ∈ seen
      · rw [if_pos hk]; exact mem_firstSeenAcc_of_seen xs seen k hk
      · rw [if_neg hk]
        exact mem_firstSeenAcc_of_seen xs (seen ++ [k]) k (by simp)
    · by_cases hk : x ∈ seen
      · rw [if_pos hk]; exact ih seen k h1
      · rw [if_neg hk]; exact ih (seen ++ [x]) k h1

lemma factorizeGo_getElem? (ks : List (List Char)) :
    ∀ (seen : List (List Char)) (i : ℕ),
      (factorizeGo seen ks)[i]? = (ks[i]?).map
        (fun k => ((idxOfKey k (firstSeenAcc seen ks) : ℕ) : ℤ)) := by
  induction ks with
  | nil => intro seen i; simp [factorizeGo]
  | cons k ks ih =>
    intro seen i
    cases i with
    | zero =>
      simp only [factorizeGo, List.getElem?_cons_zero, Option.map_some']
      have hfs : firstSeenAcc seen (k :: ks) =
          firstSeenAcc (if k ∈ seen then seen else seen ++ [k]) ks := rfl
      by_cases hk : k ∈ seen
      · rw [if_pos hk, hfs, if_pos hk]
        obtain ⟨t, ht⟩ := firstSeenAcc_extend ks seen
        rw [ht, idxOfKey_append_of_mem k seen t hk]
      · rw [if_neg hk, hfs, if_neg hk]
        obtain ⟨t, ht⟩ := firstSeenAcc_extend ks (seen ++ [k])
        rw [ht, List.append_assoc,
          idxOfKey_append_of_not_mem k seen ([k] ++ t) hk,
          idxOfKey_append_of_mem k [k] t (List.mem_singleton.mpr rfl),
          idxOfKey_singleton_self]
        simp
    | succ i =>
      simp only [factorizeGo, List.getElem?_cons_succ]
      have hfs : firstSeenAcc seen (k :: ks) =
          firstSeenAcc (if k ∈ seen then seen else seen ++ [k]) ks := rfl
      rw [hfs]
      exact ih _ i

lemma factorize_getElem? (ks : List (List Char)) (i : ℕ) :
    (factorize ks)[i]? = (ks[i]?).map
      (fun k => ((idxOfKey k (firstSeenAcc [] ks) : ℕ) : ℤ)) :=
  factorizeGo_getElem? ks [] i

/-! Claim theorems. -/

/-- C7: a raw point is excluded from the clustering mask exactly when it is
classified as ground (Classification = 2) or has fewer than 2 returns; no
other point is excluded. -/
theorem c7_mask_excludes_iff (p : RawPoint) :
    masks p = false ↔ (p.classification = 2 ∨ p.numberOfReturns < 2) := by
  unfold masks ground_mask n_returns_mask
  by_cases h1 : p.classification = 2 <;>
    by_cases h2 : p.numberOfReturns < 2 <;>
      simp [h1, h2, Bool.cond_eq_ite, beq_iff_eq]

/-- Witness for C7 at a concrete ground point. -/
theorem c7_mask_excludes_iff_witness :
    masks demoGroundPoint = false ↔
      (demoGroundPoint.classification = 2 ∨ demoGroundPoint.numberOfReturns < 2) :=
  c7_mask_excludes_iff demoGroundPoint

/-- C2 (evaluating the code at the failing input): when peak-seed
coordinates exist, kmean_cluster_group calls KMeans with the seeds as init
but max_iter = 100 (directly after printing 'max iter is 1'); when no seed
coordinates exist it calls KMeans with the default initialization and
max_iter = 1. This is the reverse of the claimed iteration counts. -/
theorem c2_kmeans_call_iterations :
    (kmean_cluster_group_call [(0, 0, 0)] 1).max_iter = 100 ∧
    (kmean_cluster_group_call [(0, 0, 0)] 1).init = KMeansInit.seedArray [(0, 0, 0)] ∧
    (kmean_cluster_group_call [] 1).max_iter = 1 ∧
    (kmean_cluster_group_call [] 1).init = KMeansInit.standard := by
  decide

/-- C4 (evaluating the code at the failing input): on a raw point set whose
every point is masked out (here: one ground point), hdbscan_on_points hands
an empty array to HDBSCAN.fit, whose input validation raises; the stage has
no handler, so the error propagates instead of yielding all-noise labels. -/
theorem c4_hdbscan_empty_raises :
    hdbscan_on_points (fun _ => []) 40 60 false [demoGroundPoint] =
      Except.error
        "ValueError: Found array with 0 sample(s) while a minimum of 1 is required" := by
  rfl

/-- C1 counterexample: one point whose polygon (area 1 < 2) fails the
sub-segmentation plausibility test. Its final Classification entry, the
factorized composite label, is the dense code 0, not -1. -/
theorem c1_final_label_counterexample :
    kmeanQualifies demoAreaOf demoKRows 0 = false ∧
    kmean_classification demoAreaOf demoKml demoKRows = [0] ∧
    ¬ kmean_classification demoAreaOf demoKml demoKRows = [-1] := by
  decide

/-- C1 amended: for every point of a polygon failing the sub-segmentation
plausibility test, the pipeline's SUB-cluster label is -1 (the labs column;
scaled value_clusterID = -10); the final factorized Classification id is a
dense non-negative code, not -1. -/
theorem c1_failing_polygon_sublabel (areaOf : ℤ → ℚ) (kml : ℕ → ℤ)
    (rows : List KRow) (r : KRow)
    (h : kmeanQualifies areaOf rows r.xyId = false) :
    labsOf areaOf kml rows r = -1 ∧
      value_clusterID_of areaOf kml rows r = -10 := by
  simp [labsOf, value_clusterID_of, h]

/-- Witness for the amended C1 at the concrete failing polygon. -/
theorem c1_failing_polygon_sublabel_witness :
    labsOf demoAreaOf demoKml demoKRows ⟨0, 0⟩ = -1 ∧
      value_clusterID_of demoAreaOf demoKml demoKRows ⟨0, 0⟩ = -10 :=
  c1_failing_polygon_sublabel demoAreaOf demoKml demoKRows ⟨0, 0⟩ (by decide)

/-- C10: convex_hullify leaves its input point table unchanged — every
rejection branch calls pandas drop without inplace, so after the loop the
caller's table holds exactly the rows it held before, rejected groups
included. -/
theorem c10_convex_hullify_frame (a : List CPoint → ℚ) (kp : Bool)
    (pts : List CPoint) : (convex_hullify a kp pts).1 = pts := by
  unfold convex_hullify
  exact convex_hullify_foldl_fst a kp _ pts []

/-- Witness for C10 at a concrete table. -/
theorem c10_convex_hullify_frame_witness :
    (convex_hullify demoHullArea false demoHullPts).1 = demoHullPts :=
  c10_convex_hullify_frame demoHullArea false demoHullPts

/-- C6: every polygon emitted by convex_hullify comes from a group of at
least 4 points whose count exceeds 3 times its hull area (so the emitted
density is strictly above 3 points per unit area, with positive area); a
group failing the size check is processed identically for every hull-area
model and emits nothing (the later checks are never evaluated), and a group
failing the density check is processed identically for every kmean_pols
flag and emits nothing (the max-area check is never evaluated). -/
theorem c6_hull_filter_invariants :
    (∀ (a : List CPoint → ℚ) (kp : Bool) (pts : List CPoint) (row : TreeRow),
        row ∈ (convex_hullify a kp pts).2 →
          4 ≤ row.n_pts ∧ 0 < row.area ∧ 3 * row.area < (row.n_pts : ℚ)) ∧
    (∀ (a₁ a₂ : List CPoint → ℚ) (kp : Bool) (pts : List CPoint) (name : ℤ),
        (membersOf pts name).length ≤ 3 →
          convex_hullify_step a₁ kp pts name = convex_hullify_step a₂ kp pts name ∧
          (convex_hullify_step a₁ kp pts name).2 = none) ∧
    (∀ (a : List CPoint → ℚ) (kp₁ kp₂ : Bool) (pts : List CPoint) (name : ℤ),
        3 < (membersOf pts name).length →
        ((membersOf pts name).length : ℚ) / a (membersOf pts name) ≤ 3 →
          convex_hullify_step a kp₁ pts name = convex_hullify_step a kp₂ pts name ∧
          (convex_hullify_step a kp₁ pts name).2 = none) := by
  refine ⟨?_, ?_, ?_⟩
  · intro a kp pts row h
    unfold convex_hullify at h
    rcases convex_hullify_mem_fold a kp (groupKeys pts) pts [] row h with h0 | ⟨name, hs⟩
    · simp at h0
    · exact convex_hullify_step_emit a kp pts name row hs
  · intro a₁ a₂ kp pts name h
    rw [convex_hullify_step_small a₁ kp pts name h,
      convex_hullify_step_small a₂ kp pts name h]
    exact ⟨rfl, rfl⟩
  · intro a kp₁ kp₂ pts name h1 h2
    rw [convex_hullify_step_sparse a kp₁ pts name h1 h2,
      convex_hullify_step_sparse a kp₂ pts name h1 h2]
    exact ⟨rfl, rfl⟩

/-- Witness for C6: the demo group of 4 points with hull area 1 is emitted
and satisfies the filter invariant. -/
theorem c6_hull_filter_invariants_witness :
    4 ≤ (⟨0, 1, 0, 4, 0, 0, 0, 0⟩ : TreeRow).n_pts ∧
    0 < (⟨0, 1, 0, 4, 0, 0, 0, 0⟩ : TreeRow).area ∧
    3 * (⟨0, 1, 0, 4, 0, 0, 0, 0⟩ : TreeRow).area <
      (((⟨0, 1, 0, 4, 0, 0, 0, 0⟩ : TreeRow).n_pts : ℕ) : ℚ) :=
  c6_hull_filter_invariants.1 demoHullArea false demoHullPts
    ⟨0, 1, 0, 4, 0, 0, 0, 0⟩ (by rw [convex_hullify_demo_out]; simp)

/-- C8: every row of the spatial join output carries the id of a polygon
that geometrically contains the row's point (together with that polygon's
non-negative density-cluster id), and a point contained in no polygon
contributes no output row (it is silently absent rather than an error). -/
theorem c8_spatial_join_sound :
    (∀ (π : Type) (covers : π → ℚ × ℚ → Bool) (pts : List (ℕ × (ℚ × ℚ)))
        (polys : List (π × ℤ)) (r : JoinRow),
        r ∈ find_points_in_polygons covers pts polys →
          ∃ i g c, r.index_right = some i ∧ polys[i]? = some (g, c) ∧
            covers g r.pt = true ∧ r.xy_clusterID = some c ∧ 0 ≤ c) ∧
    (∀ (π : Type) (covers : π → ℚ × ℚ → Bool) (pts : List (ℕ × (ℚ × ℚ)))
        (polys : List (π × ℤ)) (pid : ℕ) (pt : ℚ × ℚ),
        (pts.map Prod.fst).Nodup → (pid, pt) ∈ pts →
        (∀ e ∈ polys, covers e.1 pt = false) →
        ∀ r ∈ find_points_in_polygons covers pts polys, r.pid ≠ pid) := by
  constructor
  · intro π covers pts polys r h
    obtain ⟨hsj, hidx, hcls⟩ := find_points_in_polygons_mem covers pts polys r h
    obtain ⟨pp, _, hpid, hpt, hcases⟩ := sjoin_left_mem covers pts polys r hsj
    rcases hcases with ⟨hnone, _⟩ | ⟨e, hmem, hcov, hir, hcl⟩
    · rw [hnone] at hidx; simp at hidx
    · refine ⟨e.1, e.2.1, e.2.2, hir, ?_, ?_, hcl, ?_⟩
      · rw [← List.mem_enum_iff_getElem?]
        simpa using hmem
      · rw [hpt]; exact hcov
      · rw [hcl] at hcls
        exact of_decide_eq_true hcls
  · intro π covers pts polys pid pt hnodup hin hnocov r h hpid
    obtain ⟨hsj, hidx, _⟩ := find_points_in_polygons_mem covers pts polys r h
    obtain ⟨pp, hppmem, hrpid, hrpt, hcases⟩ := sjoin_left_mem covers pts polys r hsj
    have hpp : pp = (pid, pt) := by
      apply List.inj_on_of_nodup_map hnodup hppmem hin
      rw [← hrpid, hpid]
    rcases hcases with ⟨hnone, _⟩ | ⟨e, hmem, hcov, _, _⟩
    · rw [hnone] at hidx; simp at hidx
    · have he2 : e.2 ∈ polys := by
        have := List.mem_enum_iff_getElem?.mp hmem
        exact List.getElem?_mem this
      have := hnocov e.2 he2
      rw [hpp] at hcov
      rw [this] at hcov
      exact Bool.false_ne_true hcov

/-- Witness for C8: the first output row of the demo join carries polygon id
0, whose box contains the demo point (1, 1), with cluster id 0. -/
theorem c8_spatial_join_sound_witness :
    ∃ i g c,
      (⟨0, (1, 1), some 0, some 0⟩ : JoinRow).index_right = some i ∧
      demoPolys[i]? = some (g, c) ∧
      boxCovers g (⟨0, (1, 1), some 0, some 0⟩ : JoinRow).pt = true ∧
      (⟨0, (1, 1), some 0, some 0⟩ : JoinRow).xy_clusterID = some c ∧ 0 ≤ c :=
  c8_spatial_join_sound.1 Box boxCovers demoPts demoPolys
    ⟨0, (1, 1), some 0, some 0⟩ (by decide)

/-- C9 counterexample: with the two overlapping demo boxes both containing
the demo point, the join output carries the same point id with two
different polygon ids, refuting the at-most-one-polygon-id claim. -/
theorem c9_overlap_counterexample :
    ¬ (∀ r1 ∈ find_points_in_polygons boxCovers demoPts demoPolys,
        ∀ r2 ∈ find_points_in_polygons boxCovers demoPts demoPolys,
          r1.pid = r2.pid → r1.index_right = r2.index_right) := by
  decide

/-- C9 amended: the join emits one output row per (point, containing
polygon) pair, so a point id maps to at most one polygon id only when no
candidate point lies in two of the surviving polygons; under that
disjointness (and uniqueness of the point ids, which hold of a pandas
index), any two output rows with the same point id carry the same polygon
id. -/
theorem c9_at_most_one_polygon (π : Type) (covers : π → ℚ × ℚ → Bool)
    (pts : List (ℕ × (ℚ × ℚ))) (polys : List (π × ℤ))
    (hnodup : (pts.map Prod.fst).Nodup)
    (hdisj : ∀ p ∈ pts, ∀ e1 ∈ polys.enum, ∀ e2 ∈ polys.enum,
      covers e1.2.1 p.2 = true → covers e2.2.1 p.2 = true → e1.1 = e2.1)
    (r1 : JoinRow) (h1 : r1 ∈ find_points_in_polygons covers pts polys)
    (r2 : JoinRow) (h2 : r2 ∈ find_points_in_polygons covers pts polys)
    (hpid : r1.pid = r2.pid) : r1.index_right = r2.index_right := by
  obtain ⟨hsj1, hidx1, _⟩ := find_points_in_polygons_mem covers pts polys r1 h1
  obtain ⟨hsj2, hidx2, _⟩ := find_points_in_polygons_mem covers pts polys r2 h2
  obtain ⟨pp1, hm1, hpid1, hpt1, hc1⟩ := sjoin_left_mem covers pts polys r1 hsj1
  obtain ⟨pp2, hm2, hpid2, hpt2, hc2⟩ := sjoin_left_mem covers pts polys r2 hsj2
  have hpp : pp1 = pp2 := by
    apply List.inj_on_of_nodup_map hnodup hm1 hm2
    rw [← hpid1, ← hpid2, hpid]
  rcases hc1 with ⟨hn, _⟩ | ⟨e1, he1, hcov1, hir1, _⟩
  · rw [hn] at hidx1; simp at hidx1
  rcases hc2 with ⟨hn, _⟩ | ⟨e2, he2, hcov2, hir2, _⟩
  · rw [hn] at hidx2; simp at hidx2
  have : e1.1 = e2.1 := by
    apply hdisj pp1 hm1 e1 he1 e2 he2 hcov1
    rw [hpp]
    exact hcov2
  rw [hir1, hir2, this]

/-- Witness for the amended C9 at the disjoint demo polygons. -/
theorem c9_at_most_one_polygon_witness :
    (⟨0, (1, 1), some 0, some 0⟩ : JoinRow).index_right =
      (⟨0, (1, 1), some 0, some 0⟩ : JoinRow).index_right :=
  c9_at_most_one_polygon Box boxCovers demoPts demoDisjointPolys
    (by decide) (by decide)
    ⟨0, (1, 1), some 0, some 0⟩ (by decide)
    ⟨0, (1, 1), some 0, some 0⟩ (by decide) (by decide)

lemma round_to_val_zero_one : round_to_val 0 1 = 0 := by
  norm_num [round_to_val, rhe]

lemma round_to_val_two_one : round_to_val 2 1 = 2 := by
  norm_num [round_to_val, rhe]

lemma round_to_val_zero_half : round_to_val 0 (1/2) = 0 := by
  norm_num [round_to_val, rhe]

lemma round_to_val_two_half : round_to_val 2 (1/2) = 2 := by
  norm_num [round_to_val, rhe]

lemma dedup_demo_cells :
    ([(0 : ℚ × ℚ), ((2:ℚ), (0:ℚ))] : List (ℚ × ℚ)).dedup =
      [(0 : ℚ × ℚ), ((2:ℚ), (0:ℚ))] := by
  decide

lemma binnedData_demo_one : binnedData demoPeakPts 1 = [(0, 0, 0), (2, 0, 0)] := by
  norm_num [binnedData, demoPeakPts, round_to_val_zero_one, round_to_val_two_one,
    List.filter_cons, List.filter_nil, dedup_demo_cells, listMax,
    List.foldl_cons, List.foldl_nil, Prod.mk.injEq]

lemma binnedData_demo_half :
    binnedData demoPeakPts (1/2) = [(0, 0, 0), (2, 0, 0)] := by
  norm_num [binnedData, demoPeakPts, round_to_val_zero_half, round_to_val_two_half,
    List.filter_cons, List.filter_nil, dedup_demo_cells, listMax,
    List.foldl_cons, List.foldl_nil, Prod.mk.injEq]

/-- C3 amended: for every nonempty point set and every grid size
round_val ≥ 1, each binned cell's raster indices are non-negative and lie
inside the allocated raster dimensions. -/
theorem c3_raster_indices_in_bounds (pts : List (ℚ × ℚ × ℚ)) (r : ℚ)
    (hne : pts ≠ []) (hr : 1 ≤ r) (b : ℚ × ℚ × ℚ)
    (hb : b ∈ binnedData pts r) :
    0 ≤ interp_x_index pts r b ∧
    interp_x_index pts r b < interp_img_size_x pts r + 1 ∧
    0 ≤ interp_y_index pts r b ∧
    interp_y_index pts r b < interp_img_size_y pts r + 1 := by
  have hbne := binnedData_ne_nil pts r hne
  have hshx : ∀ v ∈ (binnedData pts r).map (fun c => c.1),
      ∃ k : ℤ, v = (k : ℚ) * r := by
    intro v hv
    rw [List.mem_map] at hv
    obtain ⟨b2, hb2, hvb⟩ := hv
    obtain ⟨p, _, hp1, _⟩ := binnedData_shape pts r b2 hb2
    exact ⟨rhe (p.1 / r), by rw [← hvb, hp1, round_to_val]⟩
  have hshy : ∀ v ∈ (binnedData pts r).map (fun c => c.2.1),
      ∃ k : ℤ, v = (k : ℚ) * r := by
    intro v hv
    rw [List.mem_map] at hv
    obtain ⟨b2, hb2, hvb⟩ := hv
    obtain ⟨p, _, _, hp2⟩ := binnedData_shape pts r b2 hb2
    exact ⟨rhe (p.2.1 / r), by rw [← hvb, hp2, round_to_val]⟩
  have hxne : (binnedData pts r).map (fun c => c.1) ≠ [] := by
    intro hc; exact hbne (List.map_eq_nil_iff.mp hc)
  have hyne : (binnedData pts r).map (fun c => c.2.1) ≠ [] := by
    intro hc; exact hbne (List.map_eq_nil_iff.mp hc)
  have hx := rounded_index_bound _ r hr hshx hxne b.1
    (List.mem_map.mpr ⟨b, hb, rfl⟩)
  have hy := rounded_index_bound _ r hr hshy hyne b.2.1
    (List.mem_map.mpr ⟨b, hb, rfl⟩)
  rw [List.map_map] at hx hy
  simp only [Function.comp_def] at hx hy
  refine ⟨hx.1, ?_, hy.1, ?_⟩
  · have := hx.2
    rw [interp_x_index, interp_img_size_x]
    rw [interp_minx]
    omega
  · have := hy.2
    rw [interp_y_index, interp_img_size_y]
    rw [interp_miny]
    omega

/-- Witness for the amended C3 at grid size 1. -/
theorem c3_raster_indices_in_bounds_witness :
    0 ≤ interp_x_index demoPeakPts 1 (0, 0, 0) ∧
    interp_x_index demoPeakPts 1 (0, 0, 0) < interp_img_size_x demoPeakPts 1 + 1 ∧
    0 ≤ interp_y_index demoPeakPts 1 (0, 0, 0) ∧
    interp_y_index demoPeakPts 1 (0, 0, 0) < interp_img_size_y demoPeakPts 1 + 1 :=
  c3_raster_indices_in_bounds demoPeakPts 1 (by simp [demoPeakPts])
    (by norm_num) (0, 0, 0) (by rw [binnedData_demo_one]; simp)

/-- C3 counterexample: with the positive fractional grid size 1/2, the
binned cell at x-offset 2 gets column index 4 while the raster is allocated
with img_size_x + 1 = 3 columns, an out-of-range index. -/
theorem c3_fractional_grid_counterexample :
    ((2:ℚ), (0:ℚ), (0:ℚ)) ∈ binnedData demoPeakPts (1/2) ∧
    interp_x_index demoPeakPts (1/2) (2, 0, 0) = 4 ∧
    interp_img_size_x demoPeakPts (1/2) = 2 ∧
    ¬ interp_x_index demoPeakPts (1/2) (2, 0, 0) <
        interp_img_size_x demoPeakPts (1/2) + 1 := by
  have hmem : ((2:ℚ), (0:ℚ), (0:ℚ)) ∈ binnedData demoPeakPts (1/2) := by
    rw [binnedData_demo_half]; simp
  have hidx : interp_x_index demoPeakPts (1/2) (2, 0, 0) = 4 := by
    rw [interp_x_index, interp_minx, binnedData_demo_half]
    norm_num [listMin, List.map_cons, List.map_nil, List.foldl_cons,
      List.foldl_nil, rhe, min_def]
  have hsize : interp_img_size_x demoPeakPts (1/2) = 2 := by
    rw [interp_img_size_x, interp_minx, binnedData_demo_half]
    norm_num [listMin, listMax, List.map_cons, List.map_nil, List.foldl_cons,
      List.foldl_nil, rhe, min_def, max_def, pyInt, pyRound1]
  exact ⟨hmem, hidx, hsize, by rw [hidx, hsize]; norm_num⟩

/-- C5: two points of the fused table receive the same final Classification
id if and only if they agree on both the sub-cluster label (labs) and the
density-cluster label (xy_clusterID); and every final id is the position of
the point's composite key in the first-seen key table, so the mapping from
composite key to dense id is fixed by first-seen order (and, being a pure
function of the input order, identical on every re-run). -/
theorem c5_label_fusion (areaOf : ℤ → ℚ) (kml : ℕ → ℤ) (rows : List KRow)
    (i j : ℕ) (hi : i < rows.length) (hj : j < rows.length) :
    ((kmean_classification areaOf kml rows)[i]? =
        (kmean_classification areaOf kml rows)[j]? ↔
      (labsOf areaOf kml rows rows[i] = labsOf areaOf kml rows rows[j] ∧
        rows[i].xyId = rows[j].xyId)) ∧
    (kmean_classification areaOf kml rows)[i]? =
      ((combi_ids areaOf kml rows)[i]?).map
        (fun k => ((idxOfKey k (firstSeenAcc [] (combi_ids areaOf kml rows)) : ℕ) : ℤ)) := by
  have hk : ∀ (m : ℕ) (hm : m < rows.length),
      (combi_ids areaOf kml rows)[m]? =
        some (combiId (value_clusterID_of areaOf kml rows rows[m]) rows[m].xyId) := by
    intro m hm
    rw [combi_ids, List.getElem?_map, List.getElem?_eq_getElem hm,
      Option.map_some']
  have hmem : ∀ (m : ℕ) (hm : m < rows.length),
      combiId (value_clusterID_of areaOf kml rows rows[m]) rows[m].xyId ∈
        firstSeenAcc [] (combi_ids areaOf kml rows) := by
    intro m hm
    apply mem_firstSeenAcc
    exact List.getElem?_mem (hk m hm)
  constructor
  · rw [kmean_classification, factorize_getElem?, factorize_getElem?,
      hk i hi, hk j hj, Option.map_some', Option.map_some']
    constructor
    · intro h
      simp only [Option.some.injEq, Nat.cast_inj] at h
      have hkeq := idxOfKey_inj _ _ _ (hmem i hi) (hmem j hj) h
      obtain ⟨hv, hc⟩ := combiId_inj _ _ _ _ hkeq
      refine ⟨?_, hc⟩
      rw [value_clusterID_of, value_clusterID_of] at hv
      exact mul_right_cancel₀ (by norm_num) hv
    · rintro ⟨hl, hx⟩
      have hkeq : combiId (value_clusterID_of areaOf kml rows rows[i]) rows[i].xyId =
          combiId (value_clusterID_of areaOf kml rows rows[j]) rows[j].xyId := by
        rw [value_clusterID_of, value_clusterID_of, hl, hx]
      rw [hkeq]
  · rw [kmean_classification]
    exact factorize_getElem? _ i

/-- Witness for C5 on the two-point demo table. -/
theorem c5_label_fusion_witness :
    ((kmean_classification demoAreaOf demoKml demoKRows2)[0]? =
        (kmean_classification demoAreaOf demoKml demoKRows2)[1]? ↔
      (labsOf demoAreaOf demoKml demoKRows2 ⟨0, 0⟩ =
          labsOf demoAreaOf demoKml demoKRows2 ⟨1, 3⟩ ∧
        (⟨0, 0⟩ : KRow).xyId = (⟨1, 3⟩ : KRow).xyId)) ∧
    (kmean_classification demoAreaOf demoKml demoKRows2)[0]? =
      ((combi_ids demoAreaOf demoKml demoKRows2)[0]?).map
        (fun k => ((idxOfKey k
          (firstSeenAcc [] (combi_ids demoAreaOf demoKml demoKRows2)) : ℕ) : ℤ)) :=
  c5_label_fusion demoAreaOf demoKml demoKRows2 0 1 (by decide) (by decide)

end TreeDetection
